import Mathlib

/-!
# Verification of the similarity-graph store and ingestion orchestrator

Shallow embedding of the repository `pyros-projects/agent-comparison-01`,
files `src/researcher/db.py` and `src/researcher/ingest.py`, together with
proofs and refutations of the behavioural claims made by the design
specification.

Modelling conventions:
* Python floats are modelled by exact rationals (`ℚ`).  Cosine-similarity
  scores, whose true value is `num / sqrt den2`, are represented exactly by
  the pair `(num, den2)` (`SimScore` below) because square roots of
  rationals are irrational; all comparisons the code performs on scores are
  reproduced exactly through a strictly monotone rational key.
* The TinyDB tables are modelled as Lean lists kept in insertion order:
  `get`/`search` return the first/all matching documents in table order,
  `update` rewrites every matching document, `insert` appends.
* I/O (HTTP fetches, the LLM collaborators, `datetime.now`) is passed in as
  explicit data, mirroring the collaborator boundary of the design.
-/

namespace PyResearcher

/-- The `NodeKind = Literal["paper", "repo"]` alias of `db.py`. -/
inductive NodeKind where
  | paper
  | repo
deriving DecidableEq, Repr

/-- The string value of a `NodeKind` literal. -/
def NodeKind.str : NodeKind → String
  | .paper => "paper"
  | .repo => "repo"

/-- Exact representation of a float cosine-similarity score.

The Python code computes `score = dot(a, b) / (norm(a) * norm(b))`, a real
number `num / sqrt den2` with `den2 = normSq a * normSq b > 0`.  We store the
pair `(num, den2)` exactly.  (Float rounding, underflow and overflow are not
modelled; arithmetic is exact.) -/
structure SimScore where
  num : ℚ
  den2 : ℚ
deriving DecidableEq, Repr

/-- Strictly monotone rational proxy for the real value `num / sqrt den2`:
for `den2 > 0`, `key = v * |v|` where `v` is the real value, and
`x ↦ x * |x|` is strictly increasing, so comparisons of keys coincide with
comparisons of the real score values. -/
def SimScore.key (s : SimScore) : ℚ := s.num * |s.num| / s.den2

/-- The float `<` comparison on scores used by the code. -/
def SimScore.ltb (s t : SimScore) : Bool := decide (s.key < t.key)

/-- A plain float (e.g. the configured threshold, or the literal `0.0`)
viewed as a score: `q = q / sqrt 1`. -/
def SimScore.ofRat (q : ℚ) : SimScore := ⟨q, 1⟩

/-- `math.isnan` applied to a score produced by `_cosine_similarity`.
In exact arithmetic the guarded division never yields NaN: the only NaN the
expression `dot / (norm*norm)` can produce for finite inputs is `0/0`, which
the `denom == 0` guard intercepts (float overflow to `inf/inf` is outside
the exact model).  Hence the predicate is constantly `false`. -/
def SimScore.isNaN (_ : SimScore) : Bool := false

/-- `@dataclass class Node` of `db.py`. -/
structure Node where
  id : String
  kind : NodeKind
  title : String
  source_url : String
  summary : String
  tags : List String
  questions_answered : List String
  key_findings : List String
  real_world_relevancy : ℚ
  interestingness : ℚ
  embedding : List ℚ
  created_at : String
deriving DecidableEq, Repr

/-- `@dataclass class Edge` of `db.py`. -/
structure Edge where
  id : String
  source_id : String
  target_id : String
  weight : SimScore
deriving DecidableEq, Repr

/-- The two TinyDB tables owned by `CatalogStore`, in insertion order. -/
structure Store where
  nodes : List Node
  edges : List Edge
deriving DecidableEq, Repr

/-- The similarity-related fields of `config.Settings`.  `max_neighbors` is
contractually a non-negative count (`MAX_NEIGHBORS`, default 15). -/
structure Settings where
  similarity_threshold : ℚ
  max_neighbors : Nat
deriving Repr

/-- `CatalogStore.get_node`: first document whose `id` field matches. -/
def get_node (s : Store) (node_id : String) : Option Node :=
  s.nodes.find? (fun n => n.id == node_id)

/-- `CatalogStore.all_nodes`: the full nodes table in table order. -/
def all_nodes (s : Store) : List Node :=
  s.nodes

/-- `CatalogStore.upsert_node`: if a document with this `id` exists, update
every matching document with *all* fields of `node` (TinyDB
`update(asdict(node), q.id == node.id)`), else insert. -/
def upsert_node (s : Store) (node : Node) : Store :=
  if s.nodes.any (fun n => n.id == node.id) then
    { s with nodes := s.nodes.map (fun n => if n.id == node.id then node else n) }
  else
    { s with nodes := s.nodes ++ [node] }

/-- The weight-rewriting function TinyDB `update({"weight": edge.weight}, ...)`
applies to each document of the edges table that matches the directed pair. -/
def edgeUpd (en : Edge) (e : Edge) : Edge :=
  if e.source_id == en.source_id && e.target_id == en.target_id then
    { e with weight := en.weight }
  else e

/-- `CatalogStore.add_edge`: if a document with this `(source_id, target_id)`
pair exists, update only its `weight` field, else insert the edge. -/
def add_edge (s : Store) (edge : Edge) : Store :=
  if s.edges.any (fun e => e.source_id == edge.source_id && e.target_id == edge.target_id) then
    { s with edges := s.edges.map (edgeUpd edge) }
  else
    { s with edges := s.edges ++ [edge] }

/-- Python's `list.sort(key=lambda x: x[1], reverse=True)` on pairs whose
second component is a score: stable descending sort by score value. -/
def pySortDescBySnd {α : Type} (xs : List (α × SimScore)) : List (α × SimScore) :=
  xs.mergeSort (fun x y => decide (y.2.key ≤ x.2.key))

/-- `CatalogStore.neighbors`: all edges whose `source_id` matches, resolved
through `get_node`, targets that do not resolve silently dropped, sorted by
weight descending. -/
def neighbors (s : Store) (node_id : String) : List (Node × SimScore) :=
  let docs := s.edges.filter (fun e => e.source_id == node_id)
  let results := docs.filterMap (fun e => (get_node s e.target_id).map (fun t => (t, e.weight)))
  pySortDescBySnd results

/-- `np.dot` on equal-length vectors (exact arithmetic). -/
def dotList (a b : List ℚ) : ℚ :=
  (List.zipWith (fun x y => x * y) a b).sum

/-- Squared Euclidean norm; `np.linalg.norm a * np.linalg.norm b` equals
`sqrt (normSq a * normSq b)`, and it is zero iff `normSq a * normSq b = 0`. -/
def normSq (a : List ℚ) : ℚ :=
  dotList a a

/-- `CatalogStore._cosine_similarity`: `denom = norm a * norm b`; if
`denom == 0` the float `0.0` is returned, otherwise `dot a b / denom`,
i.e. the score `(dot a b) / sqrt (normSq a * normSq b)`. -/
def cosine_similarity (a b : List ℚ) : SimScore :=
  if normSq a * normSq b = 0 then SimScore.ofRat 0
  else ⟨dotList a b, normSq a * normSq b⟩

/-- The `for other, score in scored[:max_neighbors]:` loop body of
`CatalogStore.connect_similar`: `break` on the first score below the
threshold, otherwise store the edge and its symmetric twin and continue. -/
def connectPairs (node : Node) (threshold : ℚ) :
    Store → List (Node × SimScore) → Store
  | s, [] => s
  | s, (other, score) :: rest =>
    if score.ltb (SimScore.ofRat threshold) then s
    else
      let s1 := add_edge s
        { id := node.id ++ "__" ++ other.id
          source_id := node.id, target_id := other.id, weight := score }
      let s2 := add_edge s1
        { id := other.id ++ "__" ++ node.id
          source_id := other.id, target_id := node.id, weight := score }
      connectPairs node threshold s2 rest

/-- The candidate-construction part of `CatalogStore.connect_similar`:
`others` (every stored node with a different id) scored against `node`, with
the `if math.isnan(score): continue` guard. -/
def connectCandidates (s : Store) (node : Node) : List (Node × SimScore) :=
  let others := (all_nodes s).filter (fun n => !(n.id == node.id))
  others.filterMap (fun other =>
    let score := cosine_similarity node.embedding other.embedding
    if score.isNaN then none else some (other, score))

/-- `CatalogStore.connect_similar`: score every other node, drop NaN scores,
sort descending, then run the capped, thresholded edge-creation loop. -/
def connect_similar (cfg : Settings) (s : Store) (node : Node) : Store :=
  connectPairs node cfg.similarity_threshold s
    ((pySortDescBySnd (connectCandidates s node)).take cfg.max_neighbors)

/-- The candidate-construction part of `CatalogStore.search_by_embedding`:
optional kind pre-filter (`if kind: nodes = [n for n in nodes if n.kind == kind]`),
then the scoring loop with its `if math.isnan(score): continue` guard. -/
def scoredCandidates (s : Store) (query_embedding : List ℚ)
    (kind : Option NodeKind) : List (Node × SimScore) :=
  let nodes := all_nodes s
  let nodes := match kind with
    | some k => nodes.filter (fun n : Node => decide (n.kind = k))
    | none => nodes
  nodes.filterMap (fun node : Node =>
    let score := cosine_similarity query_embedding node.embedding
    if score.isNaN then none else some (node, score))

/-- `CatalogStore.search_by_embedding`: optional kind pre-filter, score all
remaining nodes, drop NaN scores, sort descending, take the first `limit`. -/
def search_by_embedding (s : Store) (query_embedding : List ℚ) (limit : Nat)
    (kind : Option NodeKind) : List (Node × SimScore) :=
  (pySortDescBySnd (scoredCandidates s query_embedding kind)).take limit

/-- The real-valued float `<=` on scores, expressed through the exact key. -/
def SimScore.le (s t : SimScore) : Prop := s.key ≤ t.key

/-- A result list is "non-increasing in score": every later entry scores at
most every earlier entry. -/
def sortedDesc {α : Type} (xs : List (α × SimScore)) : Prop :=
  xs.Pairwise (fun x y => SimScore.le y.2 x.2)

/-- `pySortDescBySnd` outputs a list that is non-increasing in score. -/
theorem pySortDescBySnd_sortedDesc {α : Type} (xs : List (α × SimScore)) :
    sortedDesc (pySortDescBySnd xs) := by
  have h := @List.sorted_mergeSort (α × SimScore)
    (fun x y => decide (y.2.key ≤ x.2.key))
    (fun a b c h1 h2 => by
      simp only [decide_eq_true_eq] at *
      exact le_trans h2 h1)
    (fun a b => by
      simp only [Bool.or_eq_true, decide_eq_true_eq]
      exact le_total b.2.key a.2.key)
    xs
  exact h.imp (fun hab => by simpa [SimScore.le] using hab)

/-- `pySortDescBySnd` permutes its input. -/
theorem pySortDescBySnd_perm {α : Type} (xs : List (α × SimScore)) :
    List.Perm (pySortDescBySnd xs) xs :=
  List.mergeSort_perm xs _

/-- Sample node used by concrete witnesses: id `i`, kind `k`, embedding `emb`. -/
def demoNode (i : String) (k : NodeKind) (emb : List ℚ) : Node :=
  { id := i, kind := k, title := "T" ++ i, source_url := "https://example.org/" ++ i,
    summary := "s", tags := [], questions_answered := [], key_findings := [],
    real_world_relevancy := 1, interestingness := 2, embedding := emb,
    created_at := "2024-01-01T00:00:00+00:00" }

/-- Sample store with two papers and a repo, no edges. -/
def demoStore : Store :=
  { nodes := [demoNode "A" .paper [1, 0], demoNode "B" .paper [9/10, 1/10],
              demoNode "C" .repo [0, 1]],
    edges := [] }

/-- C7: every result list returned by `search_by_embedding` is non-increasing
in score, contains only nodes of the requested kind when a kind filter is
supplied, and has at most `limit` entries. -/
theorem search_by_embedding_ordered_filtered_limited
    (s : Store) (q : List ℚ) (limit : Nat) (kind : Option NodeKind) :
    sortedDesc (search_by_embedding s q limit kind) ∧
    (search_by_embedding s q limit kind).length ≤ limit ∧
    (∀ k, kind = some k → ∀ p ∈ search_by_embedding s q limit kind, p.1.kind = k) := by
  refine ⟨?_, ?_, ?_⟩
  · exact List.Pairwise.sublist (List.take_sublist _ _) (pySortDescBySnd_sortedDesc _)
  · simp only [search_by_embedding, List.length_take]
    exact Nat.min_le_left _ _
  · intro k hk p hp
    subst hk
    have hp1 : p ∈ pySortDescBySnd (scoredCandidates s q (some k)) :=
      List.mem_of_mem_take hp
    have hp2 : p ∈ scoredCandidates s q (some k) :=
      ((pySortDescBySnd_perm _).mem_iff).mp hp1
    simp only [scoredCandidates, SimScore.isNaN, Bool.false_eq_true, if_false,
      List.mem_filterMap, List.mem_filter, decide_eq_true_eq] at hp2
    obtain ⟨a, ⟨_, hak⟩, heq⟩ := hp2
    cases heq
    exact hak

/-- Witness for C7 at a concrete store, query, limit and kind filter. -/
theorem search_by_embedding_ordered_filtered_limited_witness :
    sortedDesc (search_by_embedding demoStore [1, 0] 2 (some .paper)) ∧
    (search_by_embedding demoStore [1, 0] 2 (some .paper)).length ≤ 2 ∧
    (∀ k, (some NodeKind.paper) = some k →
      ∀ p ∈ search_by_embedding demoStore [1, 0] 2 (some .paper), p.1.kind = k) :=
  search_by_embedding_ordered_filtered_limited demoStore [1, 0] 2 (some .paper)

/-- C10: every pair returned by `neighbors` carries a node that resolves via
`get_node` and stems from a stored outgoing edge; conversely every stored
outgoing edge whose target resolves contributes its pair, so exactly the
dangling edges are silently omitted. -/
theorem neighbors_resolvable (s : Store) (x : String) :
    (∀ p ∈ neighbors s x, get_node s p.1.id = some p.1 ∧
       ∃ e ∈ s.edges, e.source_id = x ∧ e.target_id = p.1.id ∧ e.weight = p.2) ∧
    (∀ e ∈ s.edges, e.source_id = x → ∀ n, get_node s e.target_id = some n →
       (n, e.weight) ∈ neighbors s x) := by
  constructor
  · intro p hp
    have hp1 : p ∈ (s.edges.filter (fun e => e.source_id == x)).filterMap
        (fun e => (get_node s e.target_id).map (fun t => (t, e.weight))) :=
      ((pySortDescBySnd_perm _).mem_iff).mp hp
    simp only [List.mem_filterMap, List.mem_filter, Option.map_eq_some'] at hp1
    obtain ⟨e, ⟨he, hex⟩, t, hget, hpt⟩ := hp1
    have htid : t.id = e.target_id := by
      have := List.find?_some hget
      simpa using this
    cases hpt
    refine ⟨by rw [htid]; exact hget, e, he, by simpa using hex, htid.symm, rfl⟩
  · intro e he hex n hn
    have : (n, e.weight) ∈ (s.edges.filter (fun e => e.source_id == x)).filterMap
        (fun e => (get_node s e.target_id).map (fun t => (t, e.weight))) := by
      simp only [List.mem_filterMap, List.mem_filter]
      exact ⟨e, ⟨he, by simp [hex]⟩, by simp [hn]⟩
    exact ((pySortDescBySnd_perm _).mem_iff).mpr this

/-- Store with one resolvable edge and one dangling edge, for the C10 witness. -/
def danglingStore : Store :=
  { nodes := [demoNode "A" .paper [1, 0], demoNode "B" .paper [0, 1]],
    edges := [{ id := "A__B", source_id := "A", target_id := "B", weight := SimScore.ofRat 1 },
              { id := "A__Z", source_id := "A", target_id := "Z", weight := SimScore.ofRat 1 }] }

/-- Witness for C10 at a concrete store holding a dangling edge. -/
theorem neighbors_resolvable_witness :
    (∀ p ∈ neighbors danglingStore "A", get_node danglingStore p.1.id = some p.1 ∧
       ∃ e ∈ danglingStore.edges, e.source_id = "A" ∧ e.target_id = p.1.id ∧ e.weight = p.2) ∧
    (∀ e ∈ danglingStore.edges, e.source_id = "A" →
       ∀ n, get_node danglingStore e.target_id = some n →
         (n, e.weight) ∈ neighbors danglingStore "A") :=
  neighbors_resolvable danglingStore "A"

/-- Store holding a single node whose embedding has zero norm. -/
def zeroNormStore : Store :=
  { nodes := [demoNode "Z" .paper [0, 0]], edges := [] }

/-- Counterexample to C6 as stated: the zero-norm comparison is *not*
discarded from the ranking.  `_cosine_similarity` returns the float `0.0`
(not NaN) for it, `math.isnan(0.0)` is false, so the node appears in the
returned results with score 0. -/
theorem search_zero_norm_not_discarded :
    search_by_embedding zeroNormStore [1, 0] 5 none =
      [(demoNode "Z" .paper [0, 0], SimScore.ofRat 0)] ∧
    (demoNode "Z" .paper [0, 0], SimScore.ofRat 0) ∈
      search_by_embedding zeroNormStore [1, 0] 5 none := by
  constructor
  · with_unfolding_all decide
  · with_unfolding_all decide

/-- C6 amended: a zero-norm comparison yields cosine similarity `0` (not NaN
and no error), and such comparisons *enter* the ranking with score `0`
(rather than being discarded): for every node of matching kind whose
embedding has zero norm, the pair `(node, 0)` is in the sorted candidate
list of `search_by_embedding`, so it is dropped only by `limit` truncation. -/
theorem cosine_zero_norm_included
    (a b : List ℚ) (s : Store) (q : List ℚ) (kind : Option NodeKind) (n : Node)
    (hab : normSq a = 0 ∨ normSq b = 0)
    (hn : n ∈ all_nodes s)
    (hkind : kind = none ∨ kind = some n.kind)
    (hz : normSq n.embedding = 0) :
    cosine_similarity a b = SimScore.ofRat 0 ∧
    (n, SimScore.ofRat 0) ∈ pySortDescBySnd (scoredCandidates s q kind) := by
  have hcos : ∀ x y : List ℚ, normSq x = 0 ∨ normSq y = 0 →
      cosine_similarity x y = SimScore.ofRat 0 := by
    intro x y hxy
    have : normSq x * normSq y = 0 := by
      rcases hxy with h | h <;> simp [h]
    simp [cosine_similarity, this]
  refine ⟨hcos a b hab, ?_⟩
  have hmem : (n, SimScore.ofRat 0) ∈ scoredCandidates s q kind := by
    have hscore : cosine_similarity q n.embedding = SimScore.ofRat 0 :=
      hcos q n.embedding (Or.inr hz)
    simp only [scoredCandidates, SimScore.isNaN, Bool.false_eq_true, if_false,
      List.mem_filterMap]
    refine ⟨n, ?_, by rw [hscore]⟩
    rcases hkind with h | h <;> subst h
    · exact hn
    · simp [List.mem_filter, hn]
  exact ((pySortDescBySnd_perm _).mem_iff).mpr hmem

/-- Witness for the amended C6 at the concrete zero-norm store. -/
theorem cosine_zero_norm_included_witness :
    cosine_similarity [0, 0] [1, 2] = SimScore.ofRat 0 ∧
    (demoNode "Z" .paper [0, 0], SimScore.ofRat 0) ∈
      pySortDescBySnd (scoredCandidates zeroNormStore [1, 0] none) :=
  cosine_zero_norm_included [0, 0] [1, 2] zeroNormStore [1, 0] none
    (demoNode "Z" .paper [0, 0])
    (Or.inl (by norm_num [normSq, dotList]))
    (by with_unfolding_all decide)
    (Or.inl rfl)
    (by norm_num [demoNode, normSq, dotList])

/-- The stored record before the C5 counterexample upsert. -/
def c5old : Node := demoNode "X" .paper [1]

/-- A re-analysis of the same source: same id, fresh `created_at`. -/
def c5new : Node :=
  { c5old with title := "updated", created_at := "2025-06-30T12:00:00+00:00" }

/-- Counterexample to C5 as stated: `upsert_node` on an existing id overwrites
*every* field, `created_at` included — TinyDB `update(asdict(node), ...)`
writes the full dict, so the stored `created_at` becomes the new node's value
instead of keeping the pre-call one. -/
theorem upsert_node_overwrites_created_at :
    get_node (upsert_node { nodes := [c5old], edges := [] } c5new) "X" = some c5new ∧
    c5new.created_at ≠ c5old.created_at := by
  constructor
  · with_unfolding_all decide
  · decide

/-- Auxiliary for the amended C5: on the nodes table, the update rewrites the
first (and every) record whose id matches into exactly the argument node. -/
theorem find_map_upsert (node : Node) :
    ∀ l : List Node, (l.find? (fun n => n.id == node.id)).isSome = true →
      (l.map (fun n => if n.id == node.id then node else n)).find?
          (fun n => n.id == node.id) = some node := by
  intro l
  induction l with
  | nil => simp
  | cons a t ih =>
    cases h : (a.id == node.id) with
    | true =>
      intro _
      simp only [List.map_cons, h, eq_self_iff_true, if_true, List.find?_cons,
        beq_self_eq_true]
    | false =>
      intro hs
      have ht : (List.find? (fun n => n.id == node.id) t).isSome = true := by
        simp only [List.find?_cons, h] at hs
        exact hs
      simp only [List.map_cons, h, Bool.false_eq_true, if_false, List.find?_cons]
      exact ih ht

/-- C5 amended: when a record with `node.id` already exists, `upsert_node`
replaces the record in place by the argument node *entirely* — all fields
including `createdAt` take the argument's values (only `id` is necessarily
unchanged, because the update matches on it); no record is added or removed
and records with other ids are untouched. -/
theorem upsert_node_replaces_in_place (s : Store) (node r : Node)
    (hr : get_node s node.id = some r) :
    get_node (upsert_node s node) node.id = some node ∧
    (upsert_node s node).nodes.length = s.nodes.length ∧
    ∀ m ∈ (upsert_node s node).nodes, m = node ∨ (m ∈ s.nodes ∧ m.id ≠ node.id) := by
  have hfind : s.nodes.find? (fun n => n.id == node.id) = some r := by
    simpa [get_node] using hr
  have hsome : (s.nodes.find? (fun n => n.id == node.id)).isSome = true := by
    simp [hfind]
  have hpred := List.find?_some hfind
  have hany : s.nodes.any (fun n => n.id == node.id) = true :=
    List.any_eq_true.mpr ⟨r, List.mem_of_find?_eq_some hfind, hpred⟩
  refine ⟨?_, ?_, ?_⟩
  · simp only [get_node, upsert_node, hany, if_true]
    exact find_map_upsert node s.nodes hsome
  · simp [upsert_node, hany]
  · intro m hm
    simp only [upsert_node, hany, if_true, List.mem_map] at hm
    obtain ⟨n, hn, hmn⟩ := hm
    by_cases h : n.id = node.id
    · left
      simp [h] at hmn
      exact hmn.symm
    · right
      have h' : (n.id == node.id) = false := by simpa using h
      simp only [h', if_false] at hmn
      subst hmn
      exact ⟨hn, h⟩

/-- Witness for the amended C5: re-upserting `c5new` over `c5old`. -/
theorem upsert_node_replaces_in_place_witness :
    get_node (upsert_node { nodes := [c5old], edges := [] } c5new) c5new.id = some c5new ∧
    (upsert_node { nodes := [c5old], edges := [] } c5new).nodes.length =
      ({ nodes := [c5old], edges := [] } : Store).nodes.length ∧
    ∀ m ∈ (upsert_node { nodes := [c5old], edges := [] } c5new).nodes,
      m = c5new ∨ (m ∈ ({ nodes := [c5old], edges := [] } : Store).nodes ∧ m.id ≠ c5new.id) :=
  upsert_node_replaces_in_place { nodes := [c5old], edges := [] } c5new c5old
    (by with_unfolding_all decide)

/-- The weight of the first stored directed edge from `a` to `b`, if any. -/
def edgeWeight (es : List Edge) (a b : String) : Option SimScore :=
  (es.find? (fun e => e.source_id == a && e.target_id == b)).map (fun e => e.weight)

/-- The stored edge set is symmetric: each direction of each pair carries the
same weight (or neither direction is present). -/
def symmetricEdges (es : List Edge) : Prop :=
  ∀ a b, edgeWeight es a b = edgeWeight es b a

/-- On the matched pair, the weight-rewritten table stores the new weight. -/
theorem edgeWeight_map_upd_hit (en : Edge) :
    ∀ es : List Edge,
      es.any (fun e => e.source_id == en.source_id && e.target_id == en.target_id) = true →
      edgeWeight (es.map (edgeUpd en)) en.source_id en.target_id = some en.weight := by
  intro es
  induction es with
  | nil => simp
  | cons e t ih =>
    intro hany
    cases hpr : (e.source_id == en.source_id && e.target_id == en.target_id) with
    | true =>
      have hupd : edgeUpd en e = { e with weight := en.weight } := by
        simp [edgeUpd, hpr]
      simp [edgeWeight, List.map_cons, hupd, List.find?_cons, hpr]
    | false =>
      have hupd : edgeUpd en e = e := by
        simp [edgeUpd, hpr]
      have htail : t.any
          (fun e => e.source_id == en.source_id && e.target_id == en.target_id) = true := by
        simpa [hpr] using hany
      simpa [edgeWeight, List.map_cons, hupd, List.find?_cons, hpr] using ih htail

/-- On every other pair, the weight-rewritten table keeps the old weight. -/
theorem edgeWeight_map_upd_miss (en : Edge) (a b : String)
    (hab : ¬ (a = en.source_id ∧ b = en.target_id)) :
    ∀ es : List Edge, edgeWeight (es.map (edgeUpd en)) a b = edgeWeight es a b := by
  intro es
  induction es with
  | nil => simp
  | cons e t ih =>
    have hfields : (edgeUpd en e).source_id = e.source_id ∧
        (edgeUpd en e).target_id = e.target_id := by
      unfold edgeUpd
      cases hpr : (e.source_id == en.source_id && e.target_id == en.target_id) <;> simp [hpr]
    cases hq : (e.source_id == a && e.target_id == b) with
    | true =>
      have hq' := hq
      simp only [Bool.and_eq_true, beq_iff_eq] at hq'
      have hprf : (e.source_id == en.source_id && e.target_id == en.target_id) = false := by
        by_contra hc
        simp only [Bool.not_eq_false, Bool.and_eq_true, beq_iff_eq] at hc
        exact hab ⟨hq'.1.symm.trans hc.1, hq'.2.symm.trans hc.2⟩
      have hupd : edgeUpd en e = e := by simp [edgeUpd, hprf]
      simp [edgeWeight, List.map_cons, hupd, List.find?_cons, hq]
    | false =>
      have hq2 : ((edgeUpd en e).source_id == a && (edgeUpd en e).target_id == b) = false := by
        rw [hfields.1, hfields.2]
        exact hq
      simpa [edgeWeight, List.map_cons, List.find?_cons, hq, hq2] using ih

/-- Appending a fresh pair: that pair resolves to the new weight, all other
pairs are unaffected. -/
theorem edgeWeight_append (en : Edge) (a b : String) (es : List Edge)
    (hmiss : es.any (fun e => e.source_id == en.source_id && e.target_id == en.target_id)
      = false) :
    edgeWeight (es ++ [en]) a b =
      if a = en.source_id ∧ b = en.target_id then some en.weight
      else edgeWeight es a b := by
  by_cases hab : a = en.source_id ∧ b = en.target_id
  · obtain ⟨rfl, rfl⟩ := hab
    rw [if_pos ⟨rfl, rfl⟩]
    have hnone : es.find?
        (fun e => e.source_id == en.source_id && e.target_id == en.target_id) = none :=
      List.find?_eq_none.mpr (List.any_eq_false.mp hmiss)
    simp [edgeWeight, List.find?_append, hnone, List.find?_cons]
  · rw [if_neg hab]
    have hqen : (en.source_id == a && en.target_id == b) = false := by
      by_contra hc
      simp only [Bool.not_eq_false, Bool.and_eq_true, beq_iff_eq] at hc
      exact hab ⟨hc.1.symm, hc.2.symm⟩
    simp [edgeWeight, List.find?_append, List.find?_cons, hqen]

/-- Full characterisation of `add_edge` at the level of pair weights. -/
theorem edgeWeight_add_edge (s : Store) (en : Edge) (a b : String) :
    edgeWeight (add_edge s en).edges a b =
      if a = en.source_id ∧ b = en.target_id then some en.weight
      else edgeWeight s.edges a b := by
  unfold add_edge
  cases hc : s.edges.any
      (fun e => e.source_id == en.source_id && e.target_id == en.target_id) with
  | true =>
    simp only [hc, if_true]
    by_cases hab : a = en.source_id ∧ b = en.target_id
    · obtain ⟨rfl, rfl⟩ := hab
      rw [if_pos ⟨rfl, rfl⟩]
      exact edgeWeight_map_upd_hit en s.edges hc
    · rw [if_neg hab]
      exact edgeWeight_map_upd_miss en a b hab s.edges
  | false =>
    simp only [hc, Bool.false_eq_true, if_false]
    exact edgeWeight_append en a b s.edges hc

/-- Storing a directed edge and its mirror (same weight) in sequence
preserves symmetry of the edge set. -/
theorem symmetricEdges_add_pair (s : Store) (x y idxy idyx : String) (w : SimScore)
    (h : symmetricEdges s.edges) :
    symmetricEdges
      (add_edge (add_edge s { id := idxy, source_id := x, target_id := y, weight := w })
        { id := idyx, source_id := y, target_id := x, weight := w }).edges := by
  intro a b
  rw [edgeWeight_add_edge, edgeWeight_add_edge, edgeWeight_add_edge, edgeWeight_add_edge]
  by_cases h1 : a = y ∧ b = x
  · obtain ⟨rfl, rfl⟩ := h1
    simp
  · by_cases h2 : a = x ∧ b = y
    · obtain ⟨rfl, rfl⟩ := h2
      simp
    · rw [if_neg h1, if_neg h2,
        if_neg (fun hc => h2 ⟨hc.2, hc.1⟩), if_neg (fun hc => h1 ⟨hc.2, hc.1⟩)]
      exact h a b

/-- The edge-creation loop of `connect_similar` preserves edge symmetry: each
iteration stores a directed edge and its mirror with the same weight. -/
theorem connectPairs_symmetric (node : Node) (threshold : ℚ) :
    ∀ (pairs : List (Node × SimScore)) (s : Store), symmetricEdges s.edges →
      symmetricEdges (connectPairs node threshold s pairs).edges := by
  intro pairs
  induction pairs with
  | nil =>
    intro s h
    exact h
  | cons p rest ih =>
    intro s h
    obtain ⟨other, score⟩ := p
    unfold connectPairs
    cases hlt : score.ltb (SimScore.ofRat threshold) with
    | true =>
      simpa [hlt] using h
    | false =>
      simp only [hlt, Bool.false_eq_true, if_false]
      exact ih _ (symmetricEdges_add_pair s node.id other.id _ _ score h)

/-- A single `connect_similar` call preserves edge symmetry. -/
theorem connect_similar_symmetric (cfg : Settings) (s : Store) (node : Node)
    (h : symmetricEdges s.edges) :
    symmetricEdges (connect_similar cfg s node).edges :=
  connectPairs_symmetric node cfg.similarity_threshold _ s h

/-- C2: after any sequence of `connect_similar` calls starting from a store
with a symmetric (e.g. empty) edge set, the stored edge set is symmetric: a
directed edge `(A, B)` resolves to weight `w` iff `(B, A)` resolves to the
same `w`. -/
theorem connect_similar_sequence_symmetric (cfg : Settings) (calls : List Node)
    (s : Store) (h : symmetricEdges s.edges) :
    symmetricEdges ((calls.foldl (connect_similar cfg) s).edges) := by
  induction calls generalizing s with
  | nil => exact h
  | cons n t ih => exact ih _ (connect_similar_symmetric cfg s n h)

/-- Witness for C2: two successive `connect_similar` calls on a concrete
store starting from no edges. -/
theorem connect_similar_sequence_symmetric_witness :
    symmetricEdges
      (([demoNode "A" .paper [1, 0], demoNode "C" .repo [0, 1]].foldl
        (connect_similar { similarity_threshold := 1/2, max_neighbors := 5 })
        demoStore).edges) :=
  connect_similar_sequence_symmetric { similarity_threshold := 1/2, max_neighbors := 5 }
    [demoNode "A" .paper [1, 0], demoNode "C" .repo [0, 1]] demoStore
    (fun _ _ => rfl)

/-- Number of stored outgoing edges of node `x`. -/
def countOutgoing (x : String) (es : List Edge) : Nat :=
  (es.filter (fun e => e.source_id == x)).length

/-- No stored edge has weight below the float threshold `t`. -/
def noEdgeBelow (t : ℚ) (es : List Edge) : Prop :=
  ∀ e ∈ es, ¬ (e.weight.key < (SimScore.ofRat t).key)

/-- Every edge of an `add_edge` result either carries the argument's weight or
was already stored. -/
theorem add_edge_weights (s : Store) (en : Edge) :
    ∀ e' ∈ (add_edge s en).edges, e'.weight = en.weight ∨ e' ∈ s.edges := by
  intro e' he'
  unfold add_edge at he'
  cases hc : s.edges.any
      (fun e => e.source_id == en.source_id && e.target_id == en.target_id) with
  | true =>
    simp only [hc, if_true, List.mem_map] at he'
    obtain ⟨e, he, rfl⟩ := he'
    unfold edgeUpd
    cases hpr : (e.source_id == en.source_id && e.target_id == en.target_id) with
    | true =>
      left
      simp [hpr]
    | false =>
      right
      simpa [hpr] using he
  | false =>
    simp only [hc, Bool.false_eq_true, if_false, List.mem_append, List.mem_singleton] at he'
    rcases he' with he | rfl
    · right
      exact he
    · left
      rfl

/-- `add_edge` grows the outgoing-edge count of `x` by at most one, and only
when the new edge leaves `x`. -/
theorem countOutgoing_add_edge (x : String) (s : Store) (en : Edge) :
    countOutgoing x (add_edge s en).edges ≤
      countOutgoing x s.edges + (if en.source_id = x then 1 else 0) := by
  unfold add_edge
  cases hc : s.edges.any
      (fun e => e.source_id == en.source_id && e.target_id == en.target_id) with
  | true =>
    simp only [hc, if_true]
    have hsame : countOutgoing x (s.edges.map (edgeUpd en)) = countOutgoing x s.edges := by
      unfold countOutgoing
      rw [List.filter_map]
      rw [List.length_map]
      congr 1
      apply List.filter_congr
      intro e _
      unfold edgeUpd
      cases hpr : (e.source_id == en.source_id && e.target_id == en.target_id) <;>
        simp [hpr, Function.comp]
    rw [hsame]
    exact Nat.le_add_right _ _
  | false =>
    simp only [hc, Bool.false_eq_true, if_false]
    unfold countOutgoing
    rw [List.filter_append, List.length_append]
    have : (List.filter (fun e => e.source_id == x) [en]).length ≤
        if en.source_id = x then 1 else 0 := by
      by_cases hx : en.source_id = x
      · simp [List.filter, hx]
      · have hbx : (en.source_id == x) = false := by simpa using hx
        simp [List.filter, hbx, hx]
    omega

/-- The edge-creation loop never lets the outgoing-edge count of the
triggering node grow by more than the number of processed pairs, provided no
pair points back at the node itself. -/
theorem countOutgoing_connectPairs (node : Node) (threshold : ℚ) :
    ∀ (pairs : List (Node × SimScore)) (s : Store),
      (∀ p ∈ pairs, ¬ p.1.id = node.id) →
      countOutgoing node.id (connectPairs node threshold s pairs).edges ≤
        countOutgoing node.id s.edges + pairs.length := by
  intro pairs
  induction pairs with
  | nil =>
    intro s _
    simp [connectPairs]
  | cons p rest ih =>
    intro s hp
    obtain ⟨other, score⟩ := p
    have hother : ¬ other.id = node.id := hp (other, score) (List.mem_cons_self _ _)
    unfold connectPairs
    cases hlt : score.ltb (SimScore.ofRat threshold) with
    | true =>
      simp only [hlt, if_true]
      omega
    | false =>
      simp only [hlt, Bool.false_eq_true, if_false, List.length_cons]
      have hrest : ∀ p ∈ rest, ¬ p.1.id = node.id :=
        fun q hq => hp q (List.mem_cons_of_mem _ hq)
      have h2 := ih (add_edge
          (add_edge s
            { id := node.id ++ "__" ++ other.id
              source_id := node.id
              target_id := other.id
              weight := score })
          { id := other.id ++ "__" ++ node.id
            source_id := other.id
            target_id := node.id
            weight := score }) hrest
      have ha1 := countOutgoing_add_edge node.id s
        { id := node.id ++ "__" ++ other.id
          source_id := node.id
          target_id := other.id
          weight := score }
      have ha2 := countOutgoing_add_edge node.id
        (add_edge s
          { id := node.id ++ "__" ++ other.id
            source_id := node.id
            target_id := other.id
            weight := score })
        { id := other.id ++ "__" ++ node.id
          source_id := other.id
          target_id := node.id
          weight := score }
      rw [if_pos rfl] at ha1
      rw [if_neg hother] at ha2
      omega

/-- The edge-creation loop preserves "no stored edge below the threshold",
because it stops at the first pair whose score compares below it. -/
theorem noEdgeBelow_connectPairs (node : Node) (t : ℚ) :
    ∀ (pairs : List (Node × SimScore)) (s : Store), noEdgeBelow t s.edges →
      noEdgeBelow t (connectPairs node t s pairs).edges := by
  intro pairs
  induction pairs with
  | nil =>
    intro s h
    exact h
  | cons p rest ih =>
    intro s h
    obtain ⟨other, score⟩ := p
    unfold connectPairs
    cases hlt : score.ltb (SimScore.ofRat t) with
    | true =>
      simpa [hlt] using h
    | false =>
      simp only [hlt, Bool.false_eq_true, if_false]
      have hscore : ¬ (score.key < (SimScore.ofRat t).key) := by
        simpa [SimScore.ltb] using hlt
      refine ih _ ?_
      intro e' he'
      rcases add_edge_weights _ _ e' he' with hw | he1
      · rw [hw]
        exact hscore
      · rcases add_edge_weights _ _ e' he1 with hw | he0
        · rw [hw]
          exact hscore
        · exact h e' he0

/-- C3: a `connect_similar` call preserves the invariant that no stored edge
has weight below `similarityThreshold`, and it creates at most
`maxNeighbors` new outgoing edges from the triggering node. -/
theorem connect_similar_threshold_and_cap (cfg : Settings) (s : Store) (node : Node)
    (h : noEdgeBelow cfg.similarity_threshold s.edges) :
    noEdgeBelow cfg.similarity_threshold (connect_similar cfg s node).edges ∧
    countOutgoing node.id (connect_similar cfg s node).edges ≤
      countOutgoing node.id s.edges + cfg.max_neighbors := by
  constructor
  · exact noEdgeBelow_connectPairs node cfg.similarity_threshold _ s h
  · have hmem : ∀ p ∈ (pySortDescBySnd (connectCandidates s node)).take cfg.max_neighbors,
        ¬ p.1.id = node.id := by
      intro p hp
      have hp1 : p ∈ pySortDescBySnd (connectCandidates s node) := List.mem_of_mem_take hp
      have hp2 : p ∈ connectCandidates s node := ((pySortDescBySnd_perm _).mem_iff).mp hp1
      simp only [connectCandidates, SimScore.isNaN, Bool.false_eq_true, if_false,
        List.mem_filterMap, List.mem_filter] at hp2
      obtain ⟨other, ⟨_, hne⟩, heq⟩ := hp2
      cases heq
      simpa using hne
    have hcap := countOutgoing_connectPairs node cfg.similarity_threshold
      ((pySortDescBySnd (connectCandidates s node)).take cfg.max_neighbors) s hmem
    have hlen : ((pySortDescBySnd (connectCandidates s node)).take cfg.max_neighbors).length ≤
        cfg.max_neighbors := by
      simp [List.length_take]
    unfold connect_similar
    omega

/-- Witness for C3 at a concrete store and configuration. -/
theorem connect_similar_threshold_and_cap_witness :
    noEdgeBelow (1/2)
      (connect_similar { similarity_threshold := 1/2, max_neighbors := 5 } demoStore
        (demoNode "A" .paper [1, 0])).edges ∧
    countOutgoing (demoNode "A" .paper [1, 0]).id
      (connect_similar { similarity_threshold := 1/2, max_neighbors := 5 } demoStore
        (demoNode "A" .paper [1, 0])).edges ≤
      countOutgoing (demoNode "A" .paper [1, 0]).id demoStore.edges + 5 :=
  connect_similar_threshold_and_cap { similarity_threshold := 1/2, max_neighbors := 5 }
    demoStore (demoNode "A" .paper [1, 0])
    (fun e he => absurd he (List.not_mem_nil e))

/-! ## URL canonicalizer (`normalize_source_url` and the parts of
`urllib.parse` it uses)

The model follows CPython 3.11+ `urlsplit`/`urlparse`/`urlunparse`:
leading WHATWG C0-control-or-space characters are stripped, `\t`, `\r`,
`\n` are removed everywhere, the scheme is recognised and lowercased, the
authority is cut at the first of `/?#`, unmatched square brackets in the
authority raise `ValueError` (modelled as `Except.error`), then fragment,
query and (for `urlparse`) params are split off.  Python exceptions are
modelled by the `Except` monad. -/

deriving instance DecidableEq for Except

/-- Python whitespace as stripped by `str.strip()` (ASCII part). -/
def pyIsSpace (c : Char) : Bool :=
  c == ' ' || c == '\t' || c == '\n' || c == '\r' || c == '\x0b' || c == '\x0c'

/-- The bytes `urlsplit` removes everywhere (`_UNSAFE_URL_BYTES_TO_REMOVE`). -/
def badCtrlByte (c : Char) : Bool :=
  c == '\t' || c == '\r' || c == '\n'

/-- `_WHATWG_C0_CONTROL_OR_SPACE`: code points `0x00`–`0x20`. -/
def whatwgC0OrSpace (c : Char) : Bool :=
  c.toNat ≤ 32

/-- Python's `scheme_chars`. -/
def schemeChar (c : Char) : Bool :=
  c.isAlpha || c.isDigit || c == '+' || c == '-' || c == '.'

/-- Remove trailing characters satisfying `p`. -/
def dropTrailing (p : Char → Bool) (l : List Char) : List Char :=
  (l.reverse.dropWhile p).reverse

/-- Python `str.strip(chars)`: drop the leading and trailing run of
characters satisfying `p`. -/
def listStrip (p : Char → Bool) (l : List Char) : List Char :=
  dropTrailing p (l.dropWhile p)

/-- Does `pat` occur at the very start of the list? -/
def hasPfx : List Char → List Char → Bool
  | [], _ => true
  | _ :: _, [] => false
  | p :: ps, c :: cs => p == c && hasPfx ps cs

/-- Python `str.find(c)`: index of the first occurrence of the character. -/
def idxOf? (c : Char) : List Char → Option Nat
  | [] => none
  | x :: xs => if x == c then some 0 else (idxOf? c xs).map (· + 1)

/-- Python `str.find(sub)`: index of the first occurrence of a substring. -/
def findSub? (pat : List Char) : List Char → Option Nat
  | [] => if pat.isEmpty then some 0 else none
  | c :: cs => if hasPfx pat (c :: cs) then some 0 else (findSub? pat cs).map (· + 1)

/-- Python `sub in s`. -/
def containsSub (pat l : List Char) : Bool :=
  (findSub? pat l).isSome

/-- Python `s.split(sub, 1)[1]` when `sub in s` (the list after the first
occurrence), and `s` itself when `sub` does not occur. -/
def afterFirstSub (pat l : List Char) : List Char :=
  match findSub? pat l with
  | some i => l.drop (i + pat.length)
  | none => l

/-- Python `s.split(c)`: split at every occurrence, keeping empty pieces. -/
def splitChar (c : Char) : List Char → List (List Char)
  | [] => [[]]
  | x :: xs =>
    if x == c then [] :: splitChar c xs
    else
      match splitChar c xs with
      | h :: t => (x :: h) :: t
      | [] => [[x]]

/-- Python `str.rfind(c)`: index of the last occurrence. -/
def lastIdxOf? (c : Char) (l : List Char) : Option Nat :=
  (idxOf? c l.reverse).map (fun i => l.length - 1 - i)

/-- Python `str.find(c, start)`. -/
def idxOfFrom? (c : Char) (l : List Char) (start : Nat) : Option Nat :=
  (idxOf? c (l.drop start)).map (· + start)

/-- Split at the first occurrence of `c` (Python `s.split(c, 1)`). -/
def splitAtChar? (c : Char) (l : List Char) : Option (List Char × List Char) :=
  (idxOf? c l).map (fun i => (l.take i, l.drop (i + 1)))

/-- The `SplitResult` of `urlsplit`. -/
structure UrlSplit where
  scheme : List Char
  netloc : List Char
  path : List Char
  query : List Char
  fragment : List Char
deriving DecidableEq, Repr

/-- The `ParseResult` of `urlparse`. -/
structure UrlParts where
  scheme : List Char
  netloc : List Char
  path : List Char
  params : List Char
  query : List Char
  fragment : List Char
deriving DecidableEq, Repr

/-- ASCII hexadecimal digit. -/
def isHexChar (c : Char) : Bool :=
  c.isDigit || (decide ('a' ≤ c) && decide (c ≤ 'f')) ||
    (decide ('A' ≤ c) && decide (c ≤ 'F'))

/-- CPython 3.11+ `_check_bracketed_host` validates the text inside `[...]`
as an IPvFuture (`v<hex>+.<rest>`) or an address accepted by
`ipaddress.ip_address` that is IPv6 (IPv4 in brackets is rejected).  We model
the IPvFuture shape exactly and approximate the IPv6 case by a character
check (hex digits, `:`, `.`, `%`) plus the presence of a colon; the
approximation accepts slightly more strings than CPython.  Every theorem
below that asserts a successful parse restricts to bracket-free inputs, so
the approximation is never load-bearing. -/
def bracketHostOk (host : List Char) : Bool :=
  match host with
  | [] => false
  | c :: rest =>
    if c == 'v' || c == 'V' then
      let hex := rest.takeWhile isHexChar
      let rest2 := rest.drop hex.length
      !hex.isEmpty &&
        (match rest2 with
         | '.' :: tail => !tail.isEmpty
         | _ => false)
    else
      (c :: rest).all (fun d => isHexChar d || d == ':' || d == '.' || d == '%') &&
        (c :: rest).any (· == ':')

/-- Python `if c in s: s, t = s.split(c, 1)`: cut at the first occurrence of
`c` when present. -/
def cutAt (c : Char) (l : List Char) : List Char × List Char :=
  if l.any (· == c) then
    match splitAtChar? c l with
    | some ab => ab
    | none => (l, [])
  else (l, [])

/-- The tail of `urlsplit` after scheme/netloc handling: split off the
fragment at the first `#`, then the query at the first `?`. -/
def finishSplit (scheme netloc rest2 : List Char) : Except String UrlSplit :=
  let fr := cutAt '#' rest2
  let pq := cutAt '?' fr.1
  .ok ⟨scheme, netloc, pq.1, pq.2, fr.2⟩

/-- Characters other than the authority delimiters `/?#`. -/
def nonDelim (c : Char) : Bool :=
  !(c == '/' || c == '?' || c == '#')

/-- The validity test CPython applies to a candidate scheme prefix of
length `i`: positive length, leading ASCII letter, and only scheme
characters. -/
def schemeOk (u2 : List Char) (i : Nat) : Bool :=
  0 < i && (match u2 with | c :: _ => c.isAlpha | [] => false)
    && (u2.take i).all schemeChar

/-- The scheme-recognition step of `urlsplit`: `(scheme, remainder)`. -/
def schemeSplit (u2 : List Char) : List Char × List Char :=
  match idxOf? ':' u2 with
  | some i =>
    if schemeOk u2 i then
      ((u2.take i).map Char.toLower, u2.drop (i + 1))
    else ([], u2)
  | none => ([], u2)

/-- The authority-recognition step of `urlsplit`: if the remainder starts
with `//`, cut the netloc at the first of `/?#` and validate bracketed
hosts, raising `ValueError` (an `Except.error`) on failure. -/
def netlocSplit (scheme rest : List Char) : Except String UrlSplit :=
  if hasPfx ['/', '/'] rest then
    let body := rest.drop 2
    let netloc := body.takeWhile nonDelim
    let rest2 := body.dropWhile nonDelim
    if (netloc.any (· == '[') && !netloc.any (· == ']')) ||
        (netloc.any (· == ']') && !netloc.any (· == '[')) then
      .error "Invalid IPv6 URL"
    else if netloc.any (· == '[') && netloc.any (· == ']') &&
        !bracketHostOk ((afterFirstSub ['['] netloc).takeWhile (fun c => !(c == ']'))) then
      .error "invalid bracketed host"
    else
      finishSplit scheme netloc rest2
  else
    finishSplit scheme [] rest

/-- CPython `urllib.parse.urlsplit` (3.11+ behaviour, see section comment). -/
def pyUrlsplit (url0 : List Char) : Except String UrlSplit :=
  let u1 := url0.dropWhile whatwgC0OrSpace
  let u2 := u1.filter (fun c => !badCtrlByte c)
  let sr := schemeSplit u2
  netlocSplit sr.1 sr.2

/-- CPython `_splitparams`: split params off the last path segment. -/
def pySplitparams (url : List Char) : List Char × List Char :=
  match lastIdxOf? '/' url with
  | some j =>
    match idxOfFrom? ';' url j with
    | some i => (url.take i, url.drop (i + 1))
    | none => (url, [])
  | none =>
    match idxOf? ';' url with
    | some i => (url.take i, url.drop (i + 1))
    | none => (url, [])

/-- CPython `urllib.parse.uses_params`: the schemes for which `urlparse`
splits `;params` off the path. -/
def usesParams : List (List Char) :=
  ["", "ftp", "hdl", "prospero", "http", "imap", "https", "shttp", "rtsp",
   "rtsps", "rtspu", "sip", "sips", "mms", "sftp", "tel"].map String.toList

/-- CPython `urllib.parse.urlparse`: `urlsplit`, then
`if scheme in uses_params and ';' in url: url, params = _splitparams(url)`. -/
def pyUrlparse (url : List Char) : Except String UrlParts :=
  match pyUrlsplit url with
  | .error e => .error e
  | .ok r =>
    if usesParams.contains r.scheme && r.path.any (· == ';') then
      let pp := pySplitparams r.path
      .ok ⟨r.scheme, r.netloc, pp.1, pp.2, r.query, r.fragment⟩
    else
      .ok ⟨r.scheme, r.netloc, r.path, [], r.query, r.fragment⟩

/-- CPython `urllib.parse.urlunsplit`. -/
def pyUrlunsplit (scheme netloc url query fragment : List Char) : List Char :=
  let url1 :=
    if !netloc.isEmpty || (!url.isEmpty && hasPfx ['/', '/'] url) then
      let url' := if !url.isEmpty && !(hasPfx ['/'] url) then '/' :: url else url
      '/' :: '/' :: (netloc ++ url')
    else url
  let url2 := if !scheme.isEmpty then scheme ++ ':' :: url1 else url1
  let url3 := if !query.isEmpty then url2 ++ '?' :: query else url2
  if !fragment.isEmpty then url3 ++ '#' :: fragment else url3

/-- CPython `urllib.parse.urlunparse`. -/
def pyUrlunparse (p : UrlParts) : List Char :=
  let u := if !p.params.isEmpty then p.path ++ ';' :: p.params else p.path
  pyUrlunsplit p.scheme p.netloc u p.query p.fragment

/-- `"arxiv.org"`. -/
def arxivHost : List Char := "arxiv.org".toList

/-- `"github.com"`. -/
def githubHost : List Char := "github.com".toList

/-- `"/abs/"`. -/
def absSeg : List Char := "/abs/".toList

/-- `db.normalize_source_url`: trim, return trimmed empty/unrecognised input
unchanged; canonicalise arXiv paper URLs to `https://arxiv.org/abs/<id>` and
GitHub repo URLs to `https://github.com/<owner>/<repo>`.  The `urlparse`
call can raise `ValueError` (modelled by `Except.error`), which the Python
function does not catch. -/
def normalize_source_url (kind : NodeKind) (source_url : String) :
    Except String String :=
  let url := listStrip pyIsSpace source_url.toList
  if url.isEmpty then .ok (String.mk url)
  else
    match pyUrlparse url with
    | .error e => .error e
    | .ok parsed =>
      if kind = .paper ∧ containsSub arxivHost parsed.netloc = true then
        let path := parsed.path
        let after :=
          if containsSub absSeg path then afterFirstSub absSeg path
          else path.dropWhile (· == '/')
        let after2 := listStrip (fun c => c == '/') after
        let newPath := if !after2.isEmpty then absSeg ++ after2 else "/abs".toList
        .ok (String.mk (pyUrlunparse
          ⟨"https".toList, arxivHost, newPath, [], [], []⟩))
      else if kind = .repo ∧ containsSub githubHost parsed.netloc = true then
        match (splitChar '/' parsed.path).filter (fun p => !p.isEmpty) with
        | owner :: repo :: _ =>
          .ok (String.mk (pyUrlunparse
            ⟨"https".toList, githubHost, '/' :: (owner ++ '/' :: repo), [], [], []⟩))
        | _ => .ok (String.mk url)
      else .ok (String.mk url)

/-! ## List toolbox for the canonicalizer proofs -/

/-- `db.get_node_by_source`: canonicalize the URL, then TinyDB `get` on
`(q.kind == kind) & (q.source_url == source_url)` — the first matching
document in table order.  An exception raised by `urlparse` propagates. -/
def get_node_by_source (s : Store) (kind : NodeKind) (source_url : String) :
    Except String (Option Node) :=
  match normalize_source_url kind source_url with
  | .error e => .error e
  | .ok canon =>
    .ok (s.nodes.find? (fun n => decide (n.kind = kind) && n.source_url == canon))

/-- `db.new_node_id`: canonicalize, hash `f"{kind}:{source_url}"`, prefix the
kind.  `sha1(...).hexdigest()[:16]` is a stdlib function of the hashed string
alone and is passed in as the abstract function `digest`. -/
def new_node_id (digest : String → String) (kind : NodeKind) (source_url : String) :
    Except String String :=
  match normalize_source_url kind source_url with
  | .error e => .error e
  | .ok canon => .ok (kind.str ++ "_" ++ digest (kind.str ++ ":" ++ canon))

/-- `db.make_node`: canonicalize the source URL, derive the deterministic id
(the source re-normalizes the already-canonical URL inside `new_node_id`),
and stamp `created_at` with the current time (`now`, passed in for
`datetime.now(timezone.utc).isoformat()`). -/
def make_node (digest : String → String) (now : String) (kind : NodeKind)
    (title source_url summary : String)
    (tags questions_answered key_findings : List String)
    (real_world_relevancy interestingness : ℚ) (embedding : List ℚ) :
    Except String Node :=
  match normalize_source_url kind source_url with
  | .error e => .error e
  | .ok canon =>
    match new_node_id digest kind canon with
    | .error e => .error e
    | .ok nid =>
      .ok { id := nid, kind := kind, title := title, source_url := canon,
            summary := summary, tags := tags,
            questions_answered := questions_answered,
            key_findings := key_findings,
            real_world_relevancy := real_world_relevancy,
            interestingness := interestingness, embedding := embedding,
            created_at := now }

/-- One `<entry>` of the arXiv Atom feed as consumed by
`_ingest_recent_papers`: title, abstract and the `rel="alternate"` link. -/
structure Candidate where
  title : String
  summary : String
  link : String
deriving DecidableEq, Repr

/-- The data produced by the enrichment collaborators for one candidate: the
`summarize_paper` tuple `(llm_summary, tags, key_findings, relevancy,
interestingness)` together with the `embed_text` vector. -/
structure Enriched where
  llm_summary : String
  tags : List String
  key_findings : List String
  relevancy : ℚ
  interestingness : ℚ
  embedding : List ℚ
deriving DecidableEq, Repr

/-- `@dataclass class IngestStatus` of `ingest.py`. -/
structure IngestStatus where
  running : Bool
  last_error : Option String
  last_message : Option String
deriving DecidableEq, Repr

/-- The mutable state one pass of the paper loop acts on: the shared store
and the loop's `IngestStatus`. -/
structure LoopState where
  store : Store
  status : IngestStatus
deriving DecidableEq, Repr

/-- The body of `for entry in entries:` in `_ingest_recent_papers` for one
entry: skip on empty link, skip on a dedup hit, set `last_message` *before*
enrichment, then enrich, build the node, upsert it and connect similarity
edges.  There is no per-candidate exception handler, so the second component
reports a raised exception; the state returned alongside it holds every
mutation made before the raise. -/
def ingest_candidate (digest : String → String) (now : String)
    (enrich : Candidate → Except String Enriched) (cfg : Settings)
    (st : LoopState) (c : Candidate) : LoopState × Option String :=
  if c.link == "" then (st, none)
  else
    match get_node_by_source st.store NodeKind.paper c.link with
    | .error e => (st, some e)
    | .ok (some _) => (st, none)
    | .ok none =>
      let st1 : LoopState :=
        { st with status :=
            { st.status with last_message := some ("Analyzing paper: " ++ c.title) } }
      match enrich c with
      | .error e => (st1, some e)
      | .ok enr =>
        match make_node digest now NodeKind.paper c.title c.link enr.llm_summary
            enr.tags [] enr.key_findings enr.relevancy enr.interestingness
            enr.embedding with
        | .error e => (st1, some e)
        | .ok node =>
          ({ st1 with store :=
              connect_similar cfg (upsert_node st1.store node) node }, none)

/-- The whole `for entry in entries:` loop of `_ingest_recent_papers`:
process the candidates in feed order, aborting at the first raised exception
(mutations made before the raise persist). -/
def ingest_batch (digest : String → String) (now : String)
    (enrich : Candidate → Except String Enriched) (cfg : Settings) :
    LoopState → List Candidate → LoopState × Option String
  | st, [] => (st, none)
  | st, c :: rest =>
    match ingest_candidate digest now enrich cfg st c with
    | (st1, some e) => (st1, some e)
    | (st1, none) => ingest_batch digest now enrich cfg st1 rest

/-- One iteration of the `while True:` body of `_paper_loop`: run
`_ingest_recent_papers`; on success clear `last_error`, on an exception set
`last_error` to its message. -/
def paper_loop_iter (digest : String → String) (now : String)
    (enrich : Candidate → Except String Enriched) (cfg : Settings)
    (st : LoopState) (cs : List Candidate) : LoopState :=
  match ingest_batch digest now enrich cfg st cs with
  | (st1, none) => { st1 with status := { st1.status with last_error := none } }
  | (st1, some e) => { st1 with status := { st1.status with last_error := some e } }

/-- `add_edge` touches only the edges table. -/
theorem add_edge_nodes (s : Store) (e : Edge) : (add_edge s e).nodes = s.nodes := by
  unfold add_edge
  split <;> rfl

/-- The edge-creation loop touches only the edges table. -/
theorem connectPairs_nodes (node : Node) (t : ℚ) :
    ∀ (l : List (Node × SimScore)) (s : Store),
      (connectPairs node t s l).nodes = s.nodes
  | [], s => rfl
  | (other, score) :: rest, s => by
    rw [connectPairs]
    split
    · rfl
    · rw [connectPairs_nodes node t rest _, add_edge_nodes, add_edge_nodes]

/-- `connect_similar` touches only the edges table. -/
theorem connect_similar_nodes (cfg : Settings) (s : Store) (node : Node) :
    (connect_similar cfg s node).nodes = s.nodes := by
  unfold connect_similar
  rw [connectPairs_nodes]

/-- `find?` skips a whole prefix on which it fails. -/
theorem find?_append_of_none {α : Type} (p : α → Bool) (l1 l2 : List α)
    (h : l1.find? p = none) : (l1 ++ l2).find? p = l2.find? p := by
  induction l1 with
  | nil => rfl
  | cons a t ih =>
    cases hp : p a with
    | true =>
      rw [List.find?] at h
      rw [hp] at h
      exact absurd h (by simp)
    | false =>
      rw [List.find?] at h
      rw [hp] at h
      rw [List.cons_append, List.find?, hp]
      exact ih h

/-- C1: ingesting the same raw URL twice creates no second node.  If the
first run freshly ingests candidate `c` (nonempty link, dedup miss,
enrichment succeeds, node construction succeeds, id not yet in the store),
then: the first run raises nothing; a second run of the ingestion path on
the resulting state is a no-op skipped by the `get_node_by_source` dedup
check (the whole loop state, `created_at` included, is returned unchanged);
exactly one node record with the new id exists and its `created_at` is the
first run's timestamp; and the id is derived deterministically from the
kind and the canonical URL via `new_node_id`. -/
theorem ingest_second_run_skipped
    (digest : String → String) (now1 now2 : String)
    (enrich1 enrich2 : Candidate → Except String Enriched)
    (cfg : Settings) (st0 : LoopState) (c : Candidate) (enr : Enriched) (node : Node)
    (hlink : (c.link == "") = false)
    (hded : get_node_by_source st0.store NodeKind.paper c.link = Except.ok none)
    (henr : enrich1 c = Except.ok enr)
    (hmk : make_node digest now1 NodeKind.paper c.title c.link enr.llm_summary
      enr.tags [] enr.key_findings enr.relevancy enr.interestingness
      enr.embedding = Except.ok node)
    (hfresh : ∀ n ∈ st0.store.nodes, ¬ n.id = node.id) :
    (ingest_candidate digest now1 enrich1 cfg st0 c).2 = none ∧
    ingest_candidate digest now2 enrich2 cfg
        (ingest_candidate digest now1 enrich1 cfg st0 c).1 c =
      ((ingest_candidate digest now1 enrich1 cfg st0 c).1, none) ∧
    ((ingest_candidate digest now1 enrich1 cfg st0 c).1.store.nodes.filter
        (fun n => n.id == node.id)).length = 1 ∧
    (∀ n ∈ (ingest_candidate digest now1 enrich1 cfg st0 c).1.store.nodes,
      n.id = node.id → n.created_at = now1) ∧
    (∃ canon, normalize_source_url NodeKind.paper c.link = Except.ok canon ∧
      new_node_id digest NodeKind.paper canon = Except.ok node.id) := by
  have hmk0 := hmk
  unfold make_node at hmk
  cases hnorm : normalize_source_url NodeKind.paper c.link with
  | error e =>
    rw [hnorm] at hmk
    simp at hmk
  | ok canon =>
    rw [hnorm] at hmk
    dsimp only at hmk
    cases hid : new_node_id digest NodeKind.paper canon with
    | error e =>
      rw [hid] at hmk
      simp at hmk
    | ok nid =>
      rw [hid] at hmk
      dsimp only at hmk
      injection hmk with hnode
      have hkind : node.kind = NodeKind.paper := by rw [← hnode]
      have hsrc : node.source_url = canon := by rw [← hnode]
      have hcreated : node.created_at = now1 := by rw [← hnode]
      have hid' : node.id = nid := by rw [← hnode]
      unfold get_node_by_source at hded
      rw [hnorm] at hded
      dsimp only at hded
      injection hded with hfind
      have hany : st0.store.nodes.any (fun n => n.id == node.id) = false := by
        apply List.any_eq_false.mpr
        intro n hn2
        simpa using hfresh n hn2
      have h1 : ingest_candidate digest now1 enrich1 cfg st0 c =
          ({ store := connect_similar cfg (upsert_node st0.store node) node,
             status := { running := st0.status.running,
                         last_error := st0.status.last_error,
                         last_message := some ("Analyzing paper: " ++ c.title) } },
            none) := by
        unfold ingest_candidate
        rw [if_neg (by simp [hlink])]
        unfold get_node_by_source
        rw [hnorm]
        dsimp only
        rw [hfind]
        dsimp only
        rw [henr]
        dsimp only
        rw [hmk0]
      have hnodes : (connect_similar cfg (upsert_node st0.store node) node).nodes =
          st0.store.nodes ++ [node] := by
        rw [connect_similar_nodes]
        unfold upsert_node
        rw [if_neg (by simp [hany])]
      refine ⟨by rw [h1], ?_, ?_, ?_, ⟨canon, rfl, by rw [hid']; exact hid⟩⟩
      · rw [h1]
        unfold ingest_candidate
        rw [if_neg (by simp [hlink])]
        unfold get_node_by_source
        rw [hnorm]
        dsimp only
        rw [hnodes, find?_append_of_none _ _ _ hfind]
        rw [List.find?, (by simp [hkind, hsrc] :
          (decide (node.kind = NodeKind.paper) && node.source_url == canon) = true)]
      · rw [h1]
        dsimp only
        rw [hnodes, List.filter_append]
        rw [(List.filter_eq_nil_iff).mpr (fun n hn2 => by simpa using hfresh n hn2)]
        simp [List.filter]
      · rw [h1]
        dsimp only
        rw [hnodes]
        intro n hn2 hideq
        rcases List.mem_append.mp hn2 with h | h
        · exact absurd hideq (hfresh n h)
        · rw [List.mem_singleton] at h
          subst h
          exact hcreated
/-- A fixed stand-in for the SHA-1 hex digest in concrete runs. -/
def c1digest : String → String := fun _ => "0123456789abcdef"

/-- A concrete feed entry for an arXiv paper. -/
def c1cand : Candidate :=
  { title := "Attention Is All You Need", summary := "abstract",
    link := "https://arxiv.org/abs/1706.03762" }

/-- The concrete enrichment data the collaborator returns for `c1cand`. -/
def c1enr : Enriched :=
  { llm_summary := "summary", tags := ["tag"], key_findings := ["finding"],
    relevancy := 1, interestingness := 1, embedding := [1, 0] }

/-- An always-succeeding enrichment collaborator. -/
def c1enrich : Candidate → Except String Enriched := fun _ => .ok c1enr

/-- Default similarity settings (threshold 0.8, max 15 neighbours). -/
def c1cfg : Settings := { similarity_threshold := 4 / 5, max_neighbors := 15 }

/-- The node the first ingestion run stores for `c1cand`. -/
def c1node : Node :=
  { id := "paper_0123456789abcdef", kind := .paper,
    title := "Attention Is All You Need",
    source_url := "https://arxiv.org/abs/1706.03762",
    summary := "summary", tags := ["tag"], questions_answered := [],
    key_findings := ["finding"], real_world_relevancy := 1,
    interestingness := 1, embedding := [1, 0],
    created_at := "2024-05-01T00:00:00+00:00" }

/-- An idle loop over an empty store. -/
def c1st0 : LoopState :=
  { store := { nodes := [], edges := [] },
    status := { running := true, last_error := none, last_message := none } }

theorem ingest_second_run_skipped_witness :
    (ingest_candidate c1digest "2024-05-01T00:00:00+00:00" c1enrich c1cfg c1st0 c1cand).2 =
      none ∧
    ingest_candidate c1digest "2024-05-02T00:00:00+00:00" c1enrich c1cfg
        (ingest_candidate c1digest "2024-05-01T00:00:00+00:00" c1enrich c1cfg c1st0 c1cand).1
        c1cand =
      ((ingest_candidate c1digest "2024-05-01T00:00:00+00:00" c1enrich c1cfg c1st0 c1cand).1,
        none) ∧
    ((ingest_candidate c1digest "2024-05-01T00:00:00+00:00" c1enrich c1cfg c1st0
        c1cand).1.store.nodes.filter (fun n => n.id == c1node.id)).length = 1 ∧
    (∀ n ∈ (ingest_candidate c1digest "2024-05-01T00:00:00+00:00" c1enrich c1cfg c1st0
        c1cand).1.store.nodes,
      n.id = c1node.id → n.created_at = "2024-05-01T00:00:00+00:00") ∧
    (∃ canon, normalize_source_url NodeKind.paper c1cand.link = Except.ok canon ∧
      new_node_id c1digest NodeKind.paper canon = Except.ok c1node.id) :=
  ingest_second_run_skipped c1digest "2024-05-01T00:00:00+00:00" "2024-05-02T00:00:00+00:00"
    c1enrich c1enrich c1cfg c1st0 c1cand c1enr c1node
    (by decide) (by decide) rfl (by with_unfolding_all decide)
    (by intro n hn; simp [c1st0] at hn)

/-- C4 amended: enrichment failures are NOT swallowed per candidate.
`_ingest_recent_papers` has no try/except around `summarize_paper` /
`embed_text`, so when enrichment raises for a candidate that passed the link
and dedup checks, the exception aborts the whole batch: no node (partial or
otherwise) is upserted for the failing candidate, the remaining candidates
are never processed, `last_message` is left at "Analyzing paper: <title>" of
the *failing* candidate, and `_paper_loop` records the exception in
`last_error`. -/
theorem ingest_batch_aborts_on_failure
    (digest : String → String) (now : String)
    (enrich : Candidate → Except String Enriched) (cfg : Settings)
    (st : LoopState) (c : Candidate) (rest : List Candidate) (e : String)
    (hlink : (c.link == "") = false)
    (hded : get_node_by_source st.store NodeKind.paper c.link = Except.ok none)
    (henr : enrich c = Except.error e) :
    ingest_batch digest now enrich cfg st (c :: rest) =
      ({ store := st.store,
         status := { running := st.status.running,
                     last_error := st.status.last_error,
                     last_message := some ("Analyzing paper: " ++ c.title) } },
        some e) ∧
    paper_loop_iter digest now enrich cfg st (c :: rest) =
      { store := st.store,
        status := { running := st.status.running,
                    last_error := some e,
                    last_message := some ("Analyzing paper: " ++ c.title) } } := by
  have hcand : ingest_candidate digest now enrich cfg st c =
      ({ store := st.store,
         status := { running := st.status.running,
                     last_error := st.status.last_error,
                     last_message := some ("Analyzing paper: " ++ c.title) } },
        some e) := by
    unfold ingest_candidate
    rw [if_neg (by simp [hlink])]
    rw [hded]
    dsimp only
    rw [henr]
  constructor
  · rw [ingest_batch, hcand]
  · unfold paper_loop_iter
    rw [ingest_batch, hcand]

/-- An injective stand-in for the SHA-1 digest (its collision-freeness is
irrelevant here; any function of the hashed string is a valid instance). -/
def c4digest : String → String := fun s => s

/-- Three feed entries; the collaborator below fails on the second. -/
def c4A : Candidate :=
  { title := "A", summary := "", link := "https://arxiv.org/abs/1111.11111" }

def c4B : Candidate :=
  { title := "B", summary := "", link := "https://arxiv.org/abs/2222.22222" }

def c4C : Candidate :=
  { title := "C", summary := "", link := "https://arxiv.org/abs/3333.33333" }

/-- An enrichment collaborator that raises exactly on the entry titled "B". -/
def c4enrich : Candidate → Except String Enriched :=
  fun c =>
    if c.title == "B" then .error "llm boom"
    else .ok { llm_summary := "s", tags := [], key_findings := [],
               relevancy := 0, interestingness := 0, embedding := [1] }

def c4cfg : Settings := { similarity_threshold := 4 / 5, max_neighbors := 15 }

def c4st : LoopState :=
  { store := { nodes := [], edges := [] },
    status := { running := true, last_error := none, last_message := none } }

/-- The loop state after one `_paper_loop` iteration over the batch
`[c4A, c4B, c4C]` with enrichment failing on `c4B`. -/
def c4run : LoopState :=
  paper_loop_iter c4digest "2024-06-01T00:00:00+00:00" c4enrich c4cfg c4st
    [c4A, c4B, c4C]

/-- C4 counterexample to the literal claim: with a batch of three candidates
whose enrichment fails on the second, the failure is not swallowed —
`last_error` records it, the third candidate is never upserted (only the
first is), and `last_message` names the *failing* item, not the last
successful one. -/
theorem ingest_enrich_failure_aborts_batch :
    c4run.status.last_error = some "llm boom" ∧
    c4run.status.last_message = some "Analyzing paper: B" ∧
    (c4run.store.nodes.filter (fun n => n.title == "A")).length = 1 ∧
    (c4run.store.nodes.filter (fun n => n.title == "C")).length = 0 := by
  refine ⟨?_, ?_, ?_, ?_⟩ <;> with_unfolding_all decide

theorem ingest_batch_aborts_on_failure_witness :
    ingest_batch c4digest "2024-06-01T00:00:00+00:00" c4enrich c4cfg c4st [c4B, c4C] =
      ({ store := c4st.store,
         status := { running := c4st.status.running,
                     last_error := c4st.status.last_error,
                     last_message := some ("Analyzing paper: " ++ c4B.title) } },
        some "llm boom") ∧
    paper_loop_iter c4digest "2024-06-01T00:00:00+00:00" c4enrich c4cfg c4st [c4B, c4C] =
      { store := c4st.store,
        status := { running := c4st.status.running,
                    last_error := some "llm boom",
                    last_message := some ("Analyzing paper: " ++ c4B.title) } } :=
  ingest_batch_aborts_on_failure c4digest "2024-06-01T00:00:00+00:00" c4enrich c4cfg
    c4st c4B [c4C] "llm boom" (by decide) (by decide) rfl

end PyResearcher
